import Mathlib

/-!
CPW auto-straight-line router, formalized.

A shallow embedding of the routing core of
`qiskit_metal/components/interconnects/cpw_autostraightline.py`:

* `getpts`    — the segment builder (`CpwAutoStraightLine.getpts`);
* `totlength` — the path-length helper (`CpwAutoStraightLine.totlength`);
* `make`      — the planner decision tree (`CpwAutoStraightLine.make`),
  restricted to its geometric content: the computation of the vertex list
  `self.__pts` from the two pins, the two bounding boxes, the width and the
  two lead-in lengths.  The surrounding design-model bookkeeping
  (`add_qgeometry`, `add_pin`, `connect_pins`) is out of scope.

Coordinates are exact rationals.  The source works with IEEE floats but its
specification states that all comparisons are intentionally exact, and that a
fixed-point or rational model must preserve the exact-comparison policy; `ℚ`
realizes that policy.  The only non-rational quantities in the source are

* `alignment = dot((m2ext - m1ext) / norm(m2ext - m1ext), n1)`, which is
  compared with `1`, `0` and `0` again.  For `d := m2ext - m1ext ≠ 0` and a
  unit vector `n1` we have `alignment = pdot d n1 / ‖d‖`, so with
  `a := pdot d n1`:
  `alignment == 1 ↔ (0 ≤ a ∧ a² = ‖d‖²)`, `alignment > 0 ↔ 0 < a`,
  `alignment == 0 ↔ a = 0` and `alignment < 0 ↔ a < 0`.  The branch guards
  below use these square-root-free forms.  When `d = 0` the source divides
  `0/0`, `alignment` is NaN, every comparison is false and the vertex list is
  never assigned; this is modelled by returning `none`.
* `totlength`, a sum of Euclidean norms, modelled over `ℝ` with `Real.sqrt`.

`getpts` leaves its interior-point list undefined when `segments ∉ {1,2,3}`
(an `UnboundLocalError` in Python); it therefore returns an `Option`, with
`none` for the failure case.
-/

namespace CpwAuto

/-- A 2-D point (or displacement) with exact rational coordinates. -/
abbrev Pt := ℚ × ℚ

/-- Componentwise vector addition (numpy array `+`). -/
def padd (p q : Pt) : Pt := (p.1 + q.1, p.2 + q.2)

/-- Componentwise vector subtraction (numpy array `-`). -/
def psub (p q : Pt) : Pt := (p.1 - q.1, p.2 - q.2)

/-- Scalar multiple of a vector (numpy array `*` scalar). -/
def pscale (c : ℚ) (p : Pt) : Pt := (c * p.1, c * p.2)

/-- Dot product (`np.dot`). -/
def pdot (p q : Pt) : ℚ := p.1 * q.1 + p.2 * q.2

/-- The 2-D cross product; `cross2 p q = 0` iff `p` and `q` are parallel. -/
def cross2 (p q : Pt) : ℚ := p.1 * q.2 - p.2 * q.1

/-- Squared Euclidean norm. -/
def sqnorm (p : Pt) : ℚ := p.1 ^ 2 + p.2 ^ 2

/-- A pin: the duck-typed connector object of the source, of which the
routing core reads exactly the fields `.middle` (position) and `.normal`
(outward direction). -/
structure Pin where
  middle : Pt
  normal : Pt
deriving DecidableEq

/-- The stand-off point `pin.middle + pin.normal * (width / 2 + lead)`,
the subexpression repeated throughout `getpts` and `make`. -/
def Pin.standoff (p : Pin) (width lead : ℚ) : Pt :=
  padd p.middle (pscale (width / 2 + lead) p.normal)

/-- `CpwAutoStraightLine.getpts`: build the vertex list for a CPW of
`segments ∈ {1,2,3}` segments between `startpin` and `endpin`.  Returns
`none` exactly when `segments ∉ {1,2,3}`, where the Python code would raise
(`midcoords` never assigned). -/
def getpts (startpin endpin : Pin) (width : ℚ) (segments : ℤ)
    (leadstart leadend : ℚ) (constaxis : ℤ := 0) (constval : ℚ := 0) :
    Option (List Pt) :=
  let stext := startpin.standoff width leadstart
  let enext := endpin.standoff width leadend
  let midcoords : Option (List Pt) :=
    if segments = 1 then
      -- straight across or up and down; no additional points necessary
      some []
    else if segments = 2 then
      -- choose between 2 diagonally opposing corners
      let corner1 : Pt := (stext.1, enext.2)
      let corner2 : Pt := (enext.1, stext.2)
      let startc1 := pdot (psub corner1 stext) startpin.normal
      let endc1 := pdot (psub corner1 enext) endpin.normal
      let startc2 := pdot (psub corner2 stext) startpin.normal
      let endc2 := pdot (psub corner2 enext) endpin.normal
      if 0 < startc1 ∧ 0 < endc1 then some [corner1]
      else if 0 < startc2 ∧ 0 < endc2 then some [corner2]
      else if 0 ≤ min startc1 endc1 then some [corner1]
      else some [corner2]
    else if segments = 3 then
      -- connect startpin and endpin to the long segment at constaxis
      if constaxis = 0 then
        some [(constval, stext.2), (constval, enext.2)]
      else
        some [(stext.1, constval), (enext.1, constval)]
    else none
  midcoords.map fun mc => [startpin.middle, stext] ++ mc ++ [enext, endpin.middle]

/-- Euclidean norm of a displacement, `numpy.linalg.norm`. -/
noncomputable def ptnorm (p : Pt) : ℝ := Real.sqrt ((sqnorm p : ℚ) : ℝ)

/-- `CpwAutoStraightLine.totlength`: total length of all line segments of a
vertex list, `sum(norm(pts[i] - pts[i-1]) for i in range(1, len(pts)))`. -/
noncomputable def totlength : List Pt → ℝ
  | [] => 0
  | [_] => 0
  | p :: q :: rest => ptnorm (psub q p) + totlength (q :: rest)

/-- The shortest-of-two selection the source uses in every wrap-around
case: `pts_top if totlength(pts_top) < totlength(pts_bott) else pts_bott`.
On a tie the second candidate is returned. -/
noncomputable def pickShorter (c1 c2 : List Pt) : List Pt :=
  if totlength c1 < totlength c2 then c1 else c2

/-- The geometric input of one `make` call: the two pins, the two components'
bounding boxes (`qgeometry_bounds()`), the parsed width and lead-ins. -/
structure Req where
  pin1 : Pin
  pin2 : Pin
  minx1 : ℚ
  miny1 : ℚ
  maxx1 : ℚ
  maxy1 : ℚ
  minx2 : ℚ
  miny2 : ℚ
  maxx2 : ℚ
  maxy2 : ℚ
  w : ℚ
  leadstart : ℚ
  leadend : ℚ
deriving DecidableEq

/-- Left edge of the enclosing box of both components. -/
def Req.minx (r : Req) : ℚ := min r.minx1 r.minx2

/-- Bottom edge of the enclosing box. -/
def Req.miny (r : Req) : ℚ := min r.miny1 r.miny2

/-- Right edge of the enclosing box. -/
def Req.maxx (r : Req) : ℚ := max r.maxx1 r.maxx2

/-- Top edge of the enclosing box. -/
def Req.maxy (r : Req) : ℚ := max r.maxy1 r.maxy2

/-- The start stand-off point `m1ext = m1 + n1 * (w/2 + leadstart)`. -/
def Req.m1ext (r : Req) : Pt := r.pin1.standoff r.w r.leadstart

/-- The end stand-off point `m2ext = m2 + n2 * (w/2 + leadend)`. -/
def Req.m2ext (r : Req) : Pt := r.pin2.standoff r.w r.leadend

/-- The displacement `m2ext - m1ext` between the stand-off points. -/
def Req.disp (r : Req) : Pt := psub r.m2ext r.m1ext

/-- Numerator of `alignment`: `alignment = alignNum / ‖disp‖`. -/
def Req.alignNum (r : Req) : ℚ := pdot r.disp r.pin1.normal

/-- The `normdot == -1` branch of `make`: pin normals antiparallel.
The `alignment` comparisons are encoded square-root-free as explained in the
header comment (`r.alignNum = pdot r.disp n1` is the numerator of
`alignment`, and `r.disp = m2ext - m1ext`). -/
noncomputable def makeAnti (r : Req) : Option (List Pt) :=
  if r.disp = (0, 0) then
    -- alignment is NaN; no branch fires and the source never assigns pts
    none
  else if 0 ≤ r.alignNum ∧ r.alignNum ^ 2 = sqnorm r.disp then
    -- alignment == 1: normal vectors point directly at each other
    getpts r.pin1 r.pin2 r.w 1 r.leadstart r.leadend
  else if 0 < r.alignNum then
    -- 0 < alignment < 1: antisymmetric 3-segment CPW
    if r.pin1.normal.2 = 0 then
      if r.minx2 < r.maxx1 then
        getpts r.pin1 r.pin2 r.w 3 r.leadstart r.leadend 0 ((r.minx2 + r.maxx1) / 2)
      else
        getpts r.pin1 r.pin2 r.w 3 r.leadstart r.leadend 0 ((r.minx1 + r.maxx2) / 2)
    else
      if r.miny2 < r.maxy1 then
        getpts r.pin1 r.pin2 r.w 3 r.leadstart r.leadend 1 ((r.miny2 + r.maxy1) / 2)
      else
        getpts r.pin1 r.pin2 r.w 3 r.leadstart r.leadend 1 ((r.miny1 + r.maxy2) / 2)
  else if r.alignNum = 0 then
    -- alignment == 0: displacement orthogonal to normal vectors
    getpts r.pin1 r.pin2 r.w 1 r.leadstart r.leadend
  else
    -- alignment < 0: normal vectors on opposite sides
    if r.pin1.normal.2 = 0 then
      if r.maxy1 < r.miny2 then
        getpts r.pin1 r.pin2 r.w 3 r.leadstart r.leadend 1 ((r.maxy1 + r.miny2) / 2)
      else if r.maxy2 < r.miny1 then
        getpts r.pin1 r.pin2 r.w 3 r.leadstart r.leadend 1 ((r.maxy2 + r.miny1) / 2)
      else
        -- wrap around along the top or bottom edge, shorter of the two
        (getpts r.pin1 r.pin2 r.w 3 r.leadstart r.leadend 1 (r.maxy + 0.2)).bind
          fun ptsTop =>
        (getpts r.pin1 r.pin2 r.w 3 r.leadstart r.leadend 1 (r.miny - 0.2)).bind
          fun ptsBott =>
        some (pickShorter ptsTop ptsBott)
    else
      if r.maxx1 < r.minx2 then
        getpts r.pin1 r.pin2 r.w 3 r.leadstart r.leadend 0 ((r.maxx1 + r.minx2) / 2)
      else if r.maxx2 < r.minx1 then
        getpts r.pin1 r.pin2 r.w 3 r.leadstart r.leadend 0 ((r.maxx2 + r.minx1) / 2)
      else
        -- wrap around along the left or right edge, shorter of the two
        (getpts r.pin1 r.pin2 r.w 3 r.leadstart r.leadend 0 (r.minx - 0.2)).bind
          fun ptsLeft =>
        (getpts r.pin1 r.pin2 r.w 3 r.leadstart r.leadend 0 (r.maxx + 0.2)).bind
          fun ptsRight =>
        some (pickShorter ptsLeft ptsRight)

/-- `m1[0] in [minx, maxx]` of the source: pin 1 sits on the left or right
edge of the enclosing box. -/
def onLR1 (r : Req) : Prop := r.pin1.middle.1 = r.minx ∨ r.pin1.middle.1 = r.maxx

/-- `m1[1] in [miny, maxy]`: pin 1 on the bottom or top edge. -/
def onBT1 (r : Req) : Prop := r.pin1.middle.2 = r.miny ∨ r.pin1.middle.2 = r.maxy

/-- `m2[0] in [minx, maxx]`: pin 2 on the left or right edge. -/
def onLR2 (r : Req) : Prop := r.pin2.middle.1 = r.minx ∨ r.pin2.middle.1 = r.maxx

/-- `m2[1] in [miny, maxy]`: pin 2 on the bottom or top edge. -/
def onBT2 (r : Req) : Prop := r.pin2.middle.2 = r.miny ∨ r.pin2.middle.2 = r.maxy

instance (r : Req) : Decidable (onLR1 r) :=
  inferInstanceAs (Decidable (_ = _ ∨ _ = _))
instance (r : Req) : Decidable (onBT1 r) :=
  inferInstanceAs (Decidable (_ = _ ∨ _ = _))
instance (r : Req) : Decidable (onLR2 r) :=
  inferInstanceAs (Decidable (_ = _ ∨ _ = _))
instance (r : Req) : Decidable (onBT2 r) :=
  inferInstanceAs (Decidable (_ = _ ∨ _ = _))

/-- Inner body of the perpendicular branch when pin 1 lies on the boundary
of the overall bounding box and pin 2 does not (source lines 224-253). -/
noncomputable def makePerpPin1 (r : Req) : Option (List Pt) :=
  if onLR1 r then
    -- pin 1 on left or right boundary, pointing left or right
    if 0 < r.pin2.normal.2 then
      -- pin 2 pointing up
      if r.miny1 > r.maxy2 then
        getpts r.pin1 r.pin2 r.w 2 r.leadstart r.leadend
      else
        getpts r.pin1 r.pin2 r.w 3 r.leadstart r.leadend 1 (r.maxy + 0.2)
    else
      -- pin 2 pointing down
      if r.miny2 > r.maxy1 then
        getpts r.pin1 r.pin2 r.w 2 r.leadstart r.leadend
      else
        getpts r.pin1 r.pin2 r.w 3 r.leadstart r.leadend 1 (r.miny - 0.2)
  else if onBT1 r then
    -- pin 1 on bottom or top boundary, pointing down or up
    if r.pin2.normal.1 < 0 then
      -- pin 2 pointing left
      if r.minx2 > r.maxx1 then
        getpts r.pin1 r.pin2 r.w 2 r.leadstart r.leadend
      else
        getpts r.pin1 r.pin2 r.w 3 r.leadstart r.leadend 0 (r.minx - 0.2)
    else
      -- pin 2 pointing right
      if r.minx1 > r.maxx2 then
        getpts r.pin1 r.pin2 r.w 2 r.leadstart r.leadend
      else
        getpts r.pin1 r.pin2 r.w 3 r.leadstart r.leadend 0 (r.maxx + 0.2)
  else none

/-- Inner body of the perpendicular branch when pin 2 lies on the boundary
of the overall bounding box and pin 1 does not (source lines 256-283). -/
noncomputable def makePerpPin2 (r : Req) : Option (List Pt) :=
  if onLR2 r then
    -- pin 2 on left or right boundary, pointing left or right
    if 0 < r.pin1.normal.2 then
      -- pin 1 pointing up
      if r.miny2 > r.maxy1 then
        getpts r.pin1 r.pin2 r.w 2 r.leadstart r.leadend
      else
        getpts r.pin1 r.pin2 r.w 3 r.leadstart r.leadend 1 (r.maxy + 0.2)
    else
      -- pin 1 pointing down
      if r.miny1 > r.maxy2 then
        getpts r.pin1 r.pin2 r.w 2 r.leadstart r.leadend
      else
        getpts r.pin1 r.pin2 r.w 3 r.leadstart r.leadend 1 (r.miny - 0.2)
  else if onBT2 r then
    -- pin 2 on bottom or top boundary, pointing down or up
    if r.pin1.normal.1 < 0 then
      -- pin 1 pointing left
      if r.minx1 > r.maxx2 then
        getpts r.pin1 r.pin2 r.w 2 r.leadstart r.leadend
      else
        getpts r.pin1 r.pin2 r.w 3 r.leadstart r.leadend 0 (r.minx - 0.2)
    else
      -- pin 1 pointing right
      if r.minx2 > r.maxx1 then
        getpts r.pin1 r.pin2 r.w 2 r.leadstart r.leadend
      else
        getpts r.pin1 r.pin2 r.w 3 r.leadstart r.leadend 0 (r.maxx + 0.2)
  else none

/-- The `normdot == 0` branch of `make`: pin normals perpendicular. -/
noncomputable def makePerp (r : Req) : Option (List Pt) :=
  if onLR1 r ∧ onBT2 r then
    getpts r.pin1 r.pin2 r.w 2 r.leadstart r.leadend
  else if onBT1 r ∧ onLR2 r then
    getpts r.pin1 r.pin2 r.w 2 r.leadstart r.leadend
  else if ¬onLR1 r ∧ ¬onLR2 r ∧ ¬onBT1 r ∧ ¬onBT2 r then
    -- neither pin lies on the perimeter of the overall bounding box
    if r.pin1.middle.1 = r.pin2.middle.1 ∨ r.pin1.middle.2 = r.pin2.middle.2 then
      getpts r.pin1 r.pin2 r.w 1 r.leadstart r.leadend
    else
      getpts r.pin1 r.pin2 r.w 2 r.leadstart r.leadend
  else if onLR1 r ∨ onBT1 r then
    -- pin 1 lies on the boundary of the overall bounding box, pin 2 does not
    makePerpPin1 r
  else if onLR2 r ∨ onBT2 r then
    -- pin 2 lies on the boundary of the overall bounding box, pin 1 does not
    makePerpPin2 r
  else none

/-- The final branch of `make`: pin normals pointing in the same direction
(every `normdot` other than `-1` and `0`). -/
noncomputable def makePar (r : Req) : Option (List Pt) :=
  if (r.pin1.middle.1 = r.pin2.middle.1 ∨ r.pin1.middle.2 = r.pin2.middle.2) ∧
      pdot r.pin1.normal (psub r.pin2.middle r.pin1.middle) = 0 then
    getpts r.pin1 r.pin2 r.w 1 r.leadstart r.leadend
  else if r.pin1.normal.2 = 0 then
    if r.pin1.middle.2 > r.maxy2 ∨ r.pin2.middle.2 > r.maxy1 then
      getpts r.pin1 r.pin2 r.w 2 r.leadstart r.leadend
    else
      (getpts r.pin1 r.pin2 r.w 3 r.leadstart r.leadend 1 (r.maxy + 0.2)).bind
        fun ptsTop =>
      (getpts r.pin1 r.pin2 r.w 3 r.leadstart r.leadend 1 (r.miny - 0.2)).bind
        fun ptsBott =>
      some (pickShorter ptsTop ptsBott)
  else
    if r.pin1.middle.1 > r.maxx2 ∨ r.pin2.middle.1 > r.maxx1 then
      getpts r.pin1 r.pin2 r.w 2 r.leadstart r.leadend
    else
      (getpts r.pin1 r.pin2 r.w 3 r.leadstart r.leadend 0 (r.minx - 0.2)).bind
        fun ptsLeft =>
      (getpts r.pin1 r.pin2 r.w 3 r.leadstart r.leadend 0 (r.maxx + 0.2)).bind
        fun ptsRight =>
      some (pickShorter ptsLeft ptsRight)

/-- `CpwAutoStraightLine.make`, geometric core: classify the pin-normal
orientation by `normdot` and dispatch to the corresponding branch of the
source decision tree, producing the vertex list `self.__pts`. -/
noncomputable def make (r : Req) : Option (List Pt) :=
  if pdot r.pin1.normal r.pin2.normal = -1 then makeAnti r
  else if pdot r.pin1.normal r.pin2.normal = 0 then makePerp r
  else makePar r

/-! ## Basic shape facts about `getpts` -/

/-- Explicit value of a 1-segment `getpts` call. -/
theorem getpts_one (sp ep : Pin) (w ls le : ℚ) (ca : ℤ) (cv : ℚ) :
    getpts sp ep w 1 ls le ca cv =
      some [sp.middle, sp.standoff w ls, ep.standoff w le, ep.middle] := rfl

/-- The 6-point vertex list of a 3-segment `getpts` call, written out. -/
def pts3 (sp ep : Pin) (w ls le : ℚ) (ca : ℤ) (cv : ℚ) : List Pt :=
  let stext := sp.standoff w ls
  let enext := ep.standoff w le
  if ca = 0 then [sp.middle, stext, (cv, stext.2), (cv, enext.2), enext, ep.middle]
  else [sp.middle, stext, (stext.1, cv), (enext.1, cv), enext, ep.middle]

/-- Explicit value of a 3-segment `getpts` call. -/
theorem getpts_three (sp ep : Pin) (w ls le : ℚ) (ca : ℤ) (cv : ℚ) :
    getpts sp ep w 3 ls le ca cv = some (pts3 sp ep w ls le ca cv) := by
  unfold getpts pts3
  by_cases h : ca = 0 <;> simp [h]

/-- The 5-point vertex list of a 2-segment `getpts` call, written out. -/
def pts2 (sp ep : Pin) (w ls le : ℚ) : List Pt :=
  let stext := sp.standoff w ls
  let enext := ep.standoff w le
  let corner1 : Pt := (stext.1, enext.2)
  let corner2 : Pt := (enext.1, stext.2)
  let startc1 := pdot (psub corner1 stext) sp.normal
  let endc1 := pdot (psub corner1 enext) ep.normal
  let startc2 := pdot (psub corner2 stext) sp.normal
  let endc2 := pdot (psub corner2 enext) ep.normal
  if 0 < startc1 ∧ 0 < endc1 then [sp.middle, stext, corner1, enext, ep.middle]
  else if 0 < startc2 ∧ 0 < endc2 then [sp.middle, stext, corner2, enext, ep.middle]
  else if 0 ≤ min startc1 endc1 then [sp.middle, stext, corner1, enext, ep.middle]
  else [sp.middle, stext, corner2, enext, ep.middle]

/-- Explicit value of a 2-segment `getpts` call. -/
theorem getpts_two (sp ep : Pin) (w ls le : ℚ) (ca : ℤ) (cv : ℚ) :
    getpts sp ep w 2 ls le ca cv = some (pts2 sp ep w ls le) := by
  unfold getpts pts2
  norm_num
  split_ifs <;> exact ⟨_, rfl, rfl⟩

/-- A 2-segment vertex list always has 5 points. -/
theorem pts2_length (sp ep : Pin) (w ls le : ℚ) :
    (pts2 sp ep w ls le).length = 5 := by
  unfold pts2
  simp only []
  split_ifs <;> rfl

/-- A 3-segment vertex list always has 6 points. -/
theorem pts3_length (sp ep : Pin) (w ls le : ℚ) (ca : ℤ) (cv : ℚ) :
    (pts3 sp ep w ls le ca cv).length = 6 := by
  unfold pts3
  simp only []
  split_ifs <;> rfl

/-- The wrap-around selection always returns one of its two candidates. -/
theorem pickShorter_cases (c1 c2 : List Pt) :
    pickShorter c1 c2 = c1 ∨ pickShorter c1 c2 = c2 := by
  unfold pickShorter
  by_cases h : totlength c1 < totlength c2
  · rw [if_pos h]; exact Or.inl rfl
  · rw [if_neg h]; exact Or.inr rfl

/-- The last element of a list that ends in two explicit entries. -/
theorem getLast?_append_two (l : List Pt) (a b : Pt) :
    (l ++ [a, b]).getLast? = some b := by
  induction l with
  | nil => rfl
  | cons x xs ih =>
    rcases hxs : xs ++ [a, b] with - | ⟨y, ys⟩
    · simp at hxs
    · rw [List.cons_append, hxs, List.getLast?_cons_cons, ← hxs, ih]

/-- Every list `getpts` produces starts at the start pin's position and ends
at the end pin's position. -/
theorem getpts_shape (sp ep : Pin) (w : ℚ) (seg : ℤ) (ls le : ℚ) (ca : ℤ)
    (cv : ℚ) (pts : List Pt) (h : getpts sp ep w seg ls le ca cv = some pts) :
    pts.head? = some sp.middle ∧ pts.getLast? = some ep.middle := by
  unfold getpts at h
  rw [Option.map_eq_some'] at h
  obtain ⟨mc, -, rfl⟩ := h
  refine ⟨rfl, ?_⟩
  rw [show [sp.middle, sp.standoff w ls] ++ mc ++ [ep.standoff w le, ep.middle] =
    (sp.middle :: sp.standoff w ls :: mc) ++ [ep.standoff w le, ep.middle] by simp]
  exact getLast?_append_two _ _ _

/-- Dispatch tactic target shared by the shape lemmas below: each leaf of a
branch body is `none`, a direct `getpts` call, or a shortest-of-two wrap
selection between two 3-segment candidates. -/
theorem makePerpPin1_shape (r : Req) (pts : List Pt)
    (h : makePerpPin1 r = some pts) :
    ∃ seg ca cv, (seg = 1 ∨ seg = 2 ∨ seg = 3) ∧
      getpts r.pin1 r.pin2 r.w seg r.leadstart r.leadend ca cv = some pts := by
  delta makePerpPin1 at h
  repeat' split at h
  all_goals
    first
      | exact Option.noConfusion h
      | exact ⟨2, 0, 0, by norm_num, h⟩
      | exact ⟨3, 0, _, by norm_num, h⟩
      | exact ⟨3, 1, _, by norm_num, h⟩

/-- Analogue of `makePerpPin1_shape` for the pin-2-on-boundary body. -/
theorem makePerpPin2_shape (r : Req) (pts : List Pt)
    (h : makePerpPin2 r = some pts) :
    ∃ seg ca cv, (seg = 1 ∨ seg = 2 ∨ seg = 3) ∧
      getpts r.pin1 r.pin2 r.w seg r.leadstart r.leadend ca cv = some pts := by
  delta makePerpPin2 at h
  repeat' split at h
  all_goals
    first
      | exact Option.noConfusion h
      | exact ⟨2, 0, 0, by norm_num, h⟩
      | exact ⟨3, 0, _, by norm_num, h⟩
      | exact ⟨3, 1, _, by norm_num, h⟩

/-- Every `some` result of the antiparallel branch is a `getpts` result for
a segment count in `{1, 2, 3}`. -/
theorem makeAnti_shape (r : Req) (pts : List Pt) (h : makeAnti r = some pts) :
    ∃ seg ca cv, (seg = 1 ∨ seg = 2 ∨ seg = 3) ∧
      getpts r.pin1 r.pin2 r.w seg r.leadstart r.leadend ca cv = some pts := by
  delta makeAnti at h
  repeat' split at h
  all_goals
    first
      | (simp only [getpts_three, Option.some_bind] at h
         delta pickShorter at h
         split at h <;>
           exact ⟨3, _, _, by norm_num, (getpts_three _ _ _ _ _ _ _).trans h⟩)
      | exact Option.noConfusion h
      | exact ⟨1, 0, 0, by norm_num, h⟩
      | exact ⟨3, 0, _, by norm_num, h⟩
      | exact ⟨3, 1, _, by norm_num, h⟩

/-- Analogue of `makeAnti_shape` for the perpendicular branch. -/
theorem makePerp_shape (r : Req) (pts : List Pt) (h : makePerp r = some pts) :
    ∃ seg ca cv, (seg = 1 ∨ seg = 2 ∨ seg = 3) ∧
      getpts r.pin1 r.pin2 r.w seg r.leadstart r.leadend ca cv = some pts := by
  delta makePerp at h
  repeat' split at h
  all_goals
    first
      | exact Option.noConfusion h
      | exact ⟨1, 0, 0, by norm_num, h⟩
      | exact ⟨2, 0, 0, by norm_num, h⟩
      | exact makePerpPin1_shape r pts h
      | exact makePerpPin2_shape r pts h

/-- Analogue of `makeAnti_shape` for the parallel branch. -/
theorem makePar_shape (r : Req) (pts : List Pt) (h : makePar r = some pts) :
    ∃ seg ca cv, (seg = 1 ∨ seg = 2 ∨ seg = 3) ∧
      getpts r.pin1 r.pin2 r.w seg r.leadstart r.leadend ca cv = some pts := by
  delta makePar at h
  repeat' split at h
  all_goals
    first
      | (simp only [getpts_three, Option.some_bind] at h
         delta pickShorter at h
         split at h <;>
           exact ⟨3, _, _, by norm_num, (getpts_three _ _ _ _ _ _ _).trans h⟩)
      | exact ⟨1, 0, 0, by norm_num, h⟩
      | exact ⟨2, 0, 0, by norm_num, h⟩

/-- Every `some` result of `make` is a `getpts` result for a segment count
in `{1, 2, 3}` (the planner only ever materializes those three topologies). -/
theorem make_shape (r : Req) (pts : List Pt) (h : make r = some pts) :
    ∃ seg ca cv, (seg = 1 ∨ seg = 2 ∨ seg = 3) ∧
      getpts r.pin1 r.pin2 r.w seg r.leadstart r.leadend ca cv = some pts := by
  delta make at h
  repeat' split at h
  · exact makeAnti_shape r pts h
  · exact makePerp_shape r pts h
  · exact makePar_shape r pts h

/-! ## Claim theorems: the segment builder -/

/-- C8: for `segmentCount == 1` the builder returns exactly the 4-point
sequence `[start.position, start.position + start.normal * (width/2 +
leadstart), end.position + end.normal * (width/2 + leadend), end.position]`,
with no interior waypoints beyond the two stand-off points. -/
theorem oneSegment_vertices (sp ep : Pin) (w ls le : ℚ) (ca : ℤ) (cv : ℚ) :
    getpts sp ep w 1 ls le ca cv =
      some [sp.middle, padd sp.middle (pscale (w / 2 + ls) sp.normal),
            padd ep.middle (pscale (w / 2 + le) ep.normal), ep.middle] := rfl

/-- C7: for `segmentCount == 2` the builder forms the two diagonal corners of
the rectangle implied by the stand-off points and picks corner 1 when both
normals' dot products with the offsets to corner 1 are strictly positive,
else corner 2 by the same strict test, else corner 1 when both of its dot
products are non-negative, else corner 2. -/
theorem twoSegment_corner_selection (sp ep : Pin) (w ls le : ℚ) (ca : ℤ)
    (cv : ℚ) :
    getpts sp ep w 2 ls le ca cv =
      some [sp.middle, sp.standoff w ls,
        (let A := sp.standoff w ls
         let B := ep.standoff w le
         let corner1 : Pt := (A.1, B.2)
         let corner2 : Pt := (B.1, A.2)
         let sc1 := pdot (psub corner1 A) sp.normal
         let ec1 := pdot (psub corner1 B) ep.normal
         let sc2 := pdot (psub corner2 A) sp.normal
         let ec2 := pdot (psub corner2 B) ep.normal
         if 0 < sc1 ∧ 0 < ec1 then corner1
         else if 0 < sc2 ∧ 0 < ec2 then corner2
         else if 0 ≤ sc1 ∧ 0 ≤ ec1 then corner1
         else corner2),
        ep.standoff w le, ep.middle] := by
  unfold getpts
  norm_num [le_min_iff]
  split_ifs <;> exact ⟨_, rfl, rfl⟩

/-! ## Claim theorems: totality and endpoints -/

/-- C1: every vertex sequence the planner returns begins with the start
pin's exact position and ends with the end pin's exact position, whatever
the chosen topology. -/
theorem endpoint_invariant (r : Req) (pts : List Pt) (h : make r = some pts) :
    pts.head? = some r.pin1.middle ∧ pts.getLast? = some r.pin2.middle := by
  obtain ⟨seg, ca, cv, -, hg⟩ := make_shape r pts h
  exact getpts_shape _ _ _ _ _ _ _ _ _ hg

/-- Scenario A of the spec: antiparallel, perfectly aligned pins at `(0,0)`
and `(10,0)`, width `0.01`, leads `0.022`; component boxes flank the pins. -/
def reqA : Req :=
  { pin1 := ⟨(0, 0), (1, 0)⟩
    pin2 := ⟨(10, 0), (-1, 0)⟩
    minx1 := -1, miny1 := -1, maxx1 := 0, maxy1 := 1
    minx2 := 10, miny2 := -1, maxx2 := 11, maxy2 := 1
    w := 1/100, leadstart := 11/500, leadend := 11/500 }

/-- On scenario A the planner takes the `alignment == 1` branch and returns
the straight 4-point path along `y = 0`. -/
theorem make_reqA :
    make reqA = some [((0 : ℚ), (0 : ℚ)), (27/1000, 0), (9973/1000, 0), (10, 0)] := by
  norm_num [make, makeAnti, reqA, Req.disp, Req.alignNum, Req.m1ext, Req.m2ext,
    Pin.standoff, padd, psub, pscale, pdot, sqnorm, getpts, Prod.ext_iff]

/-- Witness for C1: the endpoint invariant instantiated on scenario A. -/
theorem endpoint_invariant_witness :
    ([((0 : ℚ), (0 : ℚ)), (27/1000, 0), (9973/1000, 0), (10, 0)].head? =
        some reqA.pin1.middle) ∧
    ([((0 : ℚ), (0 : ℚ)), (27/1000, 0), (9973/1000, 0), (10, 0)].getLast? =
        some reqA.pin2.middle) :=
  endpoint_invariant reqA _ make_reqA

/-- C10: `getpts` succeeds precisely when `segments ∈ {1, 2, 3}`, in which
case the vertex list has exactly `segments + 3` points; and every list the
planner produces comes from a `getpts` call with one of those three values,
so the failure branch of `getpts` is unreachable from the planner. -/
theorem getpts_totality (sp ep : Pin) (w : ℚ) (seg : ℤ) (ls le : ℚ) (ca : ℤ)
    (cv : ℚ) (r : Req) :
    ((getpts sp ep w seg ls le ca cv).isSome ↔ (seg = 1 ∨ seg = 2 ∨ seg = 3)) ∧
    (∀ pts, getpts sp ep w seg ls le ca cv = some pts →
      (pts.length : ℤ) = seg + 3) ∧
    (∀ pts, make r = some pts → ∃ s ca2 cv2, (s = 1 ∨ s = 2 ∨ s = 3) ∧
      getpts r.pin1 r.pin2 r.w s r.leadstart r.leadend ca2 cv2 = some pts) := by
  refine ⟨?_, ?_, fun pts h => make_shape r pts h⟩
  · by_cases h1 : seg = 1
    · simp [getpts, h1]
    · by_cases h2 : seg = 2
      · simp only [getpts, h1, h2, if_true, if_false]
        split_ifs <;> simp [h2]
      · by_cases h3 : seg = 3
        · simp only [getpts, h1, h2, h3, if_true, if_false]
          split_ifs <;> simp [h3]
        · simp [getpts, h1, h2, h3]
  · intro pts h
    unfold getpts at h
    rw [Option.map_eq_some'] at h
    obtain ⟨mc, hmc, rfl⟩ := h
    by_cases h1 : seg = 1
    · rw [if_pos h1] at hmc
      obtain ⟨rfl⟩ := Option.some.inj hmc
      simp [h1]
    · rw [if_neg h1] at hmc
      by_cases h2 : seg = 2
      · rw [if_pos h2] at hmc
        simp only [] at hmc
        split_ifs at hmc <;>
          (obtain ⟨rfl⟩ := Option.some.inj hmc; simp [h2])
      · rw [if_neg h2] at hmc
        by_cases h3 : seg = 3
        · rw [if_pos h3] at hmc
          split_ifs at hmc <;>
            (obtain ⟨rfl⟩ := Option.some.inj hmc; simp [h3])
        · rw [if_neg h3] at hmc
          exact Option.noConfusion hmc

/-- Witness for C10: a concrete 2-segment `getpts` call succeeds and its
result has `2 + 3 = 5` vertices. -/
theorem getpts_totality_witness :
    (getpts reqA.pin1 reqA.pin2 1 2 0 0 0 0).isSome ∧
    (([((0 : ℚ), (0 : ℚ)), (1/2, 0), (1/2, 0), (19/2, 0),
        (10, 0)].length : ℤ) = 2 + 3) :=
  ⟨(getpts_totality reqA.pin1 reqA.pin2 1 2 0 0 0 0 reqA).1.mpr (by norm_num),
   (getpts_totality reqA.pin1 reqA.pin2 1 2 0 0 0 0 reqA).2.1 _ (by
    norm_num [getpts, reqA, Pin.standoff, padd, psub, pscale, pdot, min_def,
      Prod.ext_iff])⟩

/-! ## Claim theorems: the antiparallel S-bend family -/

/-- Branch lemma: in the antiparallel family, when the displacement between
the stand-off points is a non-negative multiple of `n1` (the exact encoding
of `alignment == 1`), `make` returns the direct 1-segment path. -/
theorem make_align1 (r : Req)
    (hnd : pdot r.pin1.normal r.pin2.normal = -1)
    (hd : r.disp ≠ (0, 0)) (ha : 0 ≤ r.alignNum)
    (hsq : r.alignNum ^ 2 = sqnorm r.disp) :
    make r = some [r.pin1.middle, r.m1ext, r.m2ext, r.pin2.middle] := by
  unfold make makeAnti
  rw [if_pos hnd, if_neg hd, if_pos (And.intro ha hsq), getpts_one]
  rfl

/-- Scenario C of the spec: pin 1 at `(0,0)` with normal `(0,-1)` on box
`(-1,0)-(1,1)`, pin 2 at `(0,-10)` with normal `(0,1)` on box
`(-1,-11)-(1,-10)`, parameterized by width and lead-ins. -/
def reqC (w ls le : ℚ) : Req :=
  { pin1 := ⟨(0, 0), (0, -1)⟩
    pin2 := ⟨(0, -10), (0, 1)⟩
    minx1 := -1, miny1 := 0, maxx1 := 1, maxy1 := 1
    minx2 := -1, miny2 := -11, maxx2 := 1, maxy2 := -10
    w := w, leadstart := ls, leadend := le }

/-- C3, counterexample: on scenario C with width `0.01` and leads `0.022`
the planner does NOT return a 3-segment result (which by the `getpts`
construction would carry `3 + 3 = 6` vertices, two of them on the constant
middle line).  The two pins face each other dead-on, so `alignment == 1`
fires first and the result is the straight 4-point, 1-segment path down
`x = 0`; no vertex list of length 6 is ever produced for this input. -/
theorem scenarioC_not_three_segments :
    make (reqC (1/100) (11/500) (11/500)) =
      some [((0 : ℚ), (0 : ℚ)), (0, -27/1000), (0, -9973/1000), (0, -10)] ∧
    ∀ pts, make (reqC (1/100) (11/500) (11/500)) = some pts →
      pts.length ≠ 6 := by
  have heval : make (reqC (1/100) (11/500) (11/500)) =
      some [((0 : ℚ), (0 : ℚ)), (0, -27/1000), (0, -9973/1000), (0, -10)] := by
    norm_num [make, makeAnti, reqC, Req.disp, Req.alignNum, Req.m1ext,
      Req.m2ext, Pin.standoff, padd, psub, pscale, pdot, sqnorm, getpts,
      Prod.ext_iff]
  refine ⟨heval, fun pts h => ?_⟩
  rw [heval] at h
  obtain ⟨rfl⟩ := Option.some.inj h
  simp

/-- C3 (amended): on scenario C, for any positive stand-off lengths that fit
inside the 10-unit gap, the planner returns the 1-segment direct result
`[(0,0), (0,-(w/2+ls)), (0,-10+(w/2+le)), (0,-10)]` along `x = 0` (the
`alignment == 1` branch), not a 3-segment S-bend. -/
theorem scenarioC_one_segment (w ls le : ℚ)
    (h1 : 0 < w / 2 + ls) (h2 : 0 < w / 2 + le)
    (h3 : w / 2 + ls + (w / 2 + le) < 10) :
    make (reqC w ls le) =
      some [(0, 0), (0, -(w / 2 + ls)), (0, -10 + (w / 2 + le)), (0, -10)] := by
  have hd : (reqC w ls le).disp = (0, (w / 2 + le) + (w / 2 + ls) - 10) := by
    simp [reqC, Req.disp, Req.m1ext, Req.m2ext, Pin.standoff, padd, psub,
      pscale, Prod.ext_iff]
    ring
  have ha : (reqC w ls le).alignNum = 10 - (w / 2 + le) - (w / 2 + ls) := by
    unfold Req.alignNum
    rw [hd]
    simp [pdot, reqC]
    ring
  have h := make_align1 (reqC w ls le) (by norm_num [reqC, pdot])
    (by rw [hd]; simp [Prod.ext_iff]; linarith)
    (by rw [ha]; linarith)
    (by rw [ha, hd]; simp [sqnorm]; ring)
  rw [h]
  simp [reqC, Req.m1ext, Req.m2ext, Pin.standoff, padd, pscale, Prod.ext_iff]

/-- Witness for C3's amended theorem: scenario C at width `0.01`, leads
`0.022`, where `w/2 + lead = 0.027` on each side. -/
theorem scenarioC_one_segment_witness :
    make (reqC (1/100) (11/500) (11/500)) =
      some [(0, 0), (0, -(1/100/2 + 11/500)),
            (0, -10 + (1/100/2 + 11/500)), (0, -10)] :=
  scenarioC_one_segment (1/100) (11/500) (11/500)
    (by norm_num) (by norm_num) (by norm_num)

/-- The asymmetric antiparallel S-bend input for C2: pin 1 at `(10,5)`
pointing right on the large box `(0,0)-(10,10)`, pin 2 at `(11, 20.5)`
pointing left on the small box `(11,20)-(12,21)`.  The gap between the
facing edges runs from `x = 10` to `x = 11`, so the gap midpoint is
`x = 10.5`. -/
def reqAsym : Req :=
  { pin1 := ⟨(10, 5), (1, 0)⟩
    pin2 := ⟨(11, 41/2), (-1, 0)⟩
    minx1 := 0, miny1 := 0, maxx1 := 10, maxy1 := 10
    minx2 := 11, miny2 := 20, maxx2 := 12, maxy2 := 21
    w := 1/10, leadstart := 0, leadend := 0 }

/-- C2, evaluation at the failing input: in the `0 < alignment < 1` branch
the code places the constant middle line at `(minx1 + maxx2)/2 = 6`, the
center of the enclosing box span, not at the gap midpoint
`(maxx1 + minx2)/2 = 10.5` claimed by the spec.  The resulting vertical
middle segment `x = 6, 5 ≤ y ≤ 20.5` cuts straight through the interior of
component 1's box `(0,0)-(10,10)`, and the second segment doubles back over
the first. -/
theorem sBend_enclosing_center_eval :
    make reqAsym =
      some [((10 : ℚ), (5 : ℚ)), (201/20, 5), (6, 5), (6, 41/2),
            (219/20, 41/2), (11, 41/2)] ∧
    (6 : ℚ) ≠ (10 + 11) / 2 := by
  constructor
  · norm_num [make, makeAnti, reqAsym, Req.disp, Req.alignNum, Req.m1ext,
      Req.m2ext, Pin.standoff, padd, psub, pscale, pdot, sqnorm, getpts,
      Prod.ext_iff]
  · norm_num

/-! ## Claim theorems: the parallel family -/

/-- The parallel-family input for C6: both pins point right; box 1 is
`(0,0)-(2,10)` with pin 1 at `(2,7)`, box 2 is `(5,0)-(7,5)` with pin 2 at
`(7,3)`.  The two boxes' y-extents overlap (`[0,10] ∩ [0,5] ≠ ∅`). -/
def reqPar : Req :=
  { pin1 := ⟨(2, 7), (1, 0)⟩
    pin2 := ⟨(7, 3), (1, 0)⟩
    minx1 := 0, miny1 := 0, maxx1 := 2, maxy1 := 10
    minx2 := 5, miny2 := 0, maxx2 := 7, maxy2 := 5
    w := 1/10, leadstart := 0, leadend := 0 }

/-- C6, counterexample: on `reqPar` the two components' box extents overlap
along the cross axis (y), yet the planner still emits a 2-segment (5-vertex)
path, because the source tests the pin positions (`m1[1] > maxy2 or
m2[1] > maxy1`, here `7 > 5`) rather than box-extent separation.  So the
2-segment branch is not equivalent to "boxes do not overlap in their
cross-axis extents". -/
theorem parallel_twoSeg_cex :
    make reqPar =
      some [((2 : ℚ), (7 : ℚ)), (41/20, 7), (141/20, 7), (141/20, 3), (7, 3)] ∧
    reqPar.miny2 ≤ reqPar.maxy1 ∧ reqPar.miny1 ≤ reqPar.maxy2 := by
  refine ⟨?_, by norm_num [reqPar], by norm_num [reqPar]⟩
  norm_num [make, makePar, reqPar, Pin.standoff, padd, psub, pscale, pdot,
    getpts, min_def, Prod.ext_iff]

/-- C6 (amended): in the parallel family, when the 1-segment collinear
condition fails, the planner emits a 2-segment (5-vertex) path precisely
when some pin position lies strictly beyond the other component's maximal
cross-axis extent — `m1.y > maxy2` or `m2.y > maxy1` for horizontal
normals, `m1.x > maxx2` or `m2.x > maxx1` for vertical ones — and
otherwise falls into the 3-segment wrap-around pattern. -/
theorem parallel_twoSeg_iff (r : Req)
    (hnd1 : pdot r.pin1.normal r.pin2.normal ≠ -1)
    (hnd0 : pdot r.pin1.normal r.pin2.normal ≠ 0)
    (h1seg : ¬((r.pin1.middle.1 = r.pin2.middle.1 ∨
        r.pin1.middle.2 = r.pin2.middle.2) ∧
        pdot r.pin1.normal (psub r.pin2.middle r.pin1.middle) = 0)) :
    (∃ pts, make r = some pts ∧ pts.length = 5) ↔
      (if r.pin1.normal.2 = 0
        then r.pin1.middle.2 > r.maxy2 ∨ r.pin2.middle.2 > r.maxy1
        else r.pin1.middle.1 > r.maxx2 ∨ r.pin2.middle.1 > r.maxx1) := by
  have hm : make r = makePar r := by
    unfold make
    rw [if_neg hnd1, if_neg hnd0]
  unfold makePar at hm
  rw [if_neg h1seg] at hm
  by_cases hn : r.pin1.normal.2 = 0
  · rw [if_pos hn] at hm ⊢
    by_cases hc : r.pin1.middle.2 > r.maxy2 ∨ r.pin2.middle.2 > r.maxy1
    · rw [if_pos hc, getpts_two] at hm
      exact iff_of_true ⟨_, hm, pts2_length _ _ _ _ _⟩ hc
    · rw [if_neg hc] at hm
      simp only [getpts_three, Option.some_bind] at hm
      refine iff_of_false ?_ hc
      rintro ⟨pts, hp, hlen⟩
      rw [hm] at hp
      obtain ⟨rfl⟩ := Option.some.inj hp
      rcases pickShorter_cases (pts3 r.pin1 r.pin2 r.w r.leadstart r.leadend
          1 (r.maxy + 0.2))
          (pts3 r.pin1 r.pin2 r.w r.leadstart r.leadend 1 (r.miny - 0.2))
        with hcase | hcase <;>
        (rw [hcase, pts3_length] at hlen; norm_num at hlen)
  · rw [if_neg hn] at hm ⊢
    by_cases hc : r.pin1.middle.1 > r.maxx2 ∨ r.pin2.middle.1 > r.maxx1
    · rw [if_pos hc, getpts_two] at hm
      exact iff_of_true ⟨_, hm, pts2_length _ _ _ _ _⟩ hc
    · rw [if_neg hc] at hm
      simp only [getpts_three, Option.some_bind] at hm
      refine iff_of_false ?_ hc
      rintro ⟨pts, hp, hlen⟩
      rw [hm] at hp
      obtain ⟨rfl⟩ := Option.some.inj hp
      rcases pickShorter_cases (pts3 r.pin1 r.pin2 r.w r.leadstart r.leadend
          0 (r.minx - 0.2))
          (pts3 r.pin1 r.pin2 r.w r.leadstart r.leadend 0 (r.maxx + 0.2))
        with hcase | hcase <;>
        (rw [hcase, pts3_length] at hlen; norm_num at hlen)

/-- Witness for C6's amended theorem: on `reqPar` the pin condition
`m1.y > maxy2` holds (`7 > 5`), and indeed a 5-vertex result exists. -/
theorem parallel_twoSeg_iff_witness :
    ∃ pts, make reqPar = some pts ∧ pts.length = 5 :=
  (parallel_twoSeg_iff reqPar (by norm_num [reqPar, pdot])
      (by norm_num [reqPar, pdot]) (by norm_num [reqPar, pdot, psub])).mpr
    (by norm_num [reqPar, Req.maxy])

/-! ## Claim theorems: wrap-around cases (shortest-of-two) -/

/-- Branch conditions reaching the antiparallel horizontal wrap-around
(source: `normdot == -1`, `alignment < 0`, horizontal normals, neither box
strictly above the other). -/
def antiWrapH (r : Req) : Prop :=
  pdot r.pin1.normal r.pin2.normal = -1 ∧ r.disp ≠ (0, 0) ∧
    r.alignNum < 0 ∧ r.pin1.normal.2 = 0 ∧
    ¬r.maxy1 < r.miny2 ∧ ¬r.maxy2 < r.miny1

/-- Branch conditions reaching the antiparallel vertical wrap-around. -/
def antiWrapV (r : Req) : Prop :=
  pdot r.pin1.normal r.pin2.normal = -1 ∧ r.disp ≠ (0, 0) ∧
    r.alignNum < 0 ∧ ¬r.pin1.normal.2 = 0 ∧
    ¬r.maxx1 < r.minx2 ∧ ¬r.maxx2 < r.minx1

/-- Branch conditions reaching the parallel horizontal wrap-around. -/
def parWrapH (r : Req) : Prop :=
  pdot r.pin1.normal r.pin2.normal ≠ -1 ∧
    pdot r.pin1.normal r.pin2.normal ≠ 0 ∧
    ¬((r.pin1.middle.1 = r.pin2.middle.1 ∨
        r.pin1.middle.2 = r.pin2.middle.2) ∧
      pdot r.pin1.normal (psub r.pin2.middle r.pin1.middle) = 0) ∧
    r.pin1.normal.2 = 0 ∧
    ¬(r.pin1.middle.2 > r.maxy2 ∨ r.pin2.middle.2 > r.maxy1)

/-- Branch conditions reaching the parallel vertical wrap-around. -/
def parWrapV (r : Req) : Prop :=
  pdot r.pin1.normal r.pin2.normal ≠ -1 ∧
    pdot r.pin1.normal r.pin2.normal ≠ 0 ∧
    ¬((r.pin1.middle.1 = r.pin2.middle.1 ∨
        r.pin1.middle.2 = r.pin2.middle.2) ∧
      pdot r.pin1.normal (psub r.pin2.middle r.pin1.middle) = 0) ∧
    ¬r.pin1.normal.2 = 0 ∧
    ¬(r.pin1.middle.1 > r.maxx2 ∨ r.pin2.middle.1 > r.maxx1)

/-- A wrap-around case together with the two 3-segment candidates the
source materializes, `c1` the candidate favoured by a strict length win and
`c2` the one returned on a tie (bottom-route resp. right-route). -/
def WrapCase (r : Req) (c1 c2 : List Pt) : Prop :=
  (antiWrapH r ∧
    c1 = pts3 r.pin1 r.pin2 r.w r.leadstart r.leadend 1 (r.maxy + 0.2) ∧
    c2 = pts3 r.pin1 r.pin2 r.w r.leadstart r.leadend 1 (r.miny - 0.2)) ∨
  (antiWrapV r ∧
    c1 = pts3 r.pin1 r.pin2 r.w r.leadstart r.leadend 0 (r.minx - 0.2) ∧
    c2 = pts3 r.pin1 r.pin2 r.w r.leadstart r.leadend 0 (r.maxx + 0.2)) ∨
  (parWrapH r ∧
    c1 = pts3 r.pin1 r.pin2 r.w r.leadstart r.leadend 1 (r.maxy + 0.2) ∧
    c2 = pts3 r.pin1 r.pin2 r.w r.leadstart r.leadend 1 (r.miny - 0.2)) ∨
  (parWrapV r ∧
    c1 = pts3 r.pin1 r.pin2 r.w r.leadstart r.leadend 0 (r.minx - 0.2) ∧
    c2 = pts3 r.pin1 r.pin2 r.w r.leadstart r.leadend 0 (r.maxx + 0.2))

/-- In every wrap-around case `make` returns exactly the shortest-of-two
selection between the two materialized candidates. -/
theorem make_wrap (r : Req) (c1 c2 : List Pt) (h : WrapCase r c1 c2) :
    make r = some (pickShorter c1 c2) := by
  rcases h with ⟨⟨hnd, hd, ha, hn, hy1, hy2⟩, hc1, hc2⟩ |
    ⟨⟨hnd, hd, ha, hn, hx1, hx2⟩, hc1, hc2⟩ |
    ⟨⟨hnd1, hnd0, h1seg, hn, hc⟩, hc1, hc2⟩ |
    ⟨⟨hnd1, hnd0, h1seg, hn, hc⟩, hc1, hc2⟩
  · unfold make makeAnti
    rw [if_pos hnd, if_neg hd,
      if_neg (by rintro ⟨h0, -⟩; exact absurd ha (not_lt.mpr h0)),
      if_neg (by intro h0; linarith), if_neg (by intro h0; linarith),
      if_pos hn, if_neg hy1, if_neg hy2]
    simp only [getpts_three, Option.some_bind, hc1, hc2]
  · unfold make makeAnti
    rw [if_pos hnd, if_neg hd,
      if_neg (by rintro ⟨h0, -⟩; exact absurd ha (not_lt.mpr h0)),
      if_neg (by intro h0; linarith), if_neg (by intro h0; linarith),
      if_neg hn, if_neg hx1, if_neg hx2]
    simp only [getpts_three, Option.some_bind, hc1, hc2]
  · unfold make makePar
    rw [if_neg hnd1, if_neg hnd0, if_neg h1seg, if_pos hn, if_neg hc]
    simp only [getpts_three, Option.some_bind, hc1, hc2]
  · unfold make makePar
    rw [if_neg hnd1, if_neg hnd0, if_neg h1seg, if_neg hn, if_neg hc]
    simp only [getpts_three, Option.some_bind, hc1, hc2]

/-- C4: in every wrap-around case the returned path is one of the two
materialized 3-segment candidates, its total length is at most the total
length of the rejected candidate, and on a tie the fixed-preference
candidate (bottom-route resp. right-route, `c2`) is returned. -/
theorem shortest_of_two (r : Req) (c1 c2 : List Pt) (h : WrapCase r c1 c2) :
    ((make r = some c1 ∧ totlength c1 ≤ totlength c2) ∨
      (make r = some c2 ∧ totlength c2 ≤ totlength c1)) ∧
    (totlength c1 = totlength c2 → make r = some c2) := by
  have hm := make_wrap r c1 c2 h
  unfold pickShorter at hm
  by_cases hlt : totlength c1 < totlength c2
  · rw [if_pos hlt] at hm
    exact ⟨Or.inl ⟨hm, le_of_lt hlt⟩,
      fun he => absurd hlt (by rw [he]; exact lt_irrefl _)⟩
  · rw [if_neg hlt] at hm
    exact ⟨Or.inr ⟨hm, le_of_not_lt hlt⟩, fun _ => hm⟩

/-- A concrete wrap-around input: two side-by-side boxes of equal height
with pins facing away from each other (antiparallel, `alignment < 0`, with
overlapping y-extents). -/
def reqWrap : Req :=
  { pin1 := ⟨(2, 1), (1, 0)⟩
    pin2 := ⟨(-4, 1), (-1, 0)⟩
    minx1 := 0, miny1 := 0, maxx1 := 2, maxy1 := 2
    minx2 := -4, miny2 := 0, maxx2 := -2, maxy2 := 2
    w := 1/10, leadstart := 0, leadend := 0 }

/-- The top-route candidate on `reqWrap` (constant line `y = maxy + 0.2`). -/
def candTop : List Pt :=
  pts3 reqWrap.pin1 reqWrap.pin2 reqWrap.w reqWrap.leadstart reqWrap.leadend
    1 (reqWrap.maxy + 0.2)

/-- The bottom-route candidate on `reqWrap` (constant `y = miny - 0.2`). -/
def candBott : List Pt :=
  pts3 reqWrap.pin1 reqWrap.pin2 reqWrap.w reqWrap.leadstart reqWrap.leadend
    1 (reqWrap.miny - 0.2)

/-- Witness for C4: the shortest-of-two guarantee instantiated on the
concrete wrap-around input `reqWrap`. -/
theorem shortest_of_two_witness :
    (make reqWrap = some candTop ∧ totlength candTop ≤ totlength candBott) ∨
      (make reqWrap = some candBott ∧
        totlength candBott ≤ totlength candTop) :=
  (shortest_of_two reqWrap candTop candBott
    (Or.inl ⟨by
      norm_num [antiWrapH, reqWrap, Req.disp, Req.alignNum, Req.m1ext,
        Req.m2ext, Pin.standoff, padd, psub, pscale, pdot, Prod.ext_iff],
      rfl, rfl⟩)).1

/-- C5: in every wrap-around case the two competing candidates' constant
lines sit exactly `0.2` outside the corresponding extreme edges of the
enclosing box (`maxy + 0.2` and `miny - 0.2` for horizontal middle lines,
`minx - 0.2` and `maxx + 0.2` for vertical ones), and the chosen path is
one of the two candidates, so its interior waypoints (vertices 2 and 3)
carry exactly that `0.2` keep-out offset. -/
theorem wraparound_keepout (r : Req) (c1 c2 : List Pt) (h : WrapCase r c1 c2) :
    (((c1.getD 2 (0, 0)).2 = r.maxy + 0.2 ∧ (c1.getD 3 (0, 0)).2 = r.maxy + 0.2 ∧
      (c2.getD 2 (0, 0)).2 = r.miny - 0.2 ∧ (c2.getD 3 (0, 0)).2 = r.miny - 0.2) ∨
     ((c1.getD 2 (0, 0)).1 = r.minx - 0.2 ∧ (c1.getD 3 (0, 0)).1 = r.minx - 0.2 ∧
      (c2.getD 2 (0, 0)).1 = r.maxx + 0.2 ∧ (c2.getD 3 (0, 0)).1 = r.maxx + 0.2)) ∧
    ∀ pts, make r = some pts → pts = c1 ∨ pts = c2 := by
  constructor
  · rcases h with ⟨-, hc1, hc2⟩ | ⟨-, hc1, hc2⟩ | ⟨-, hc1, hc2⟩ | ⟨-, hc1, hc2⟩ <;>
      subst hc1 <;> subst hc2 <;> [left; right; left; right] <;>
      norm_num [pts3, List.getD]
  · intro pts hp
    rw [make_wrap r c1 c2 h] at hp
    obtain ⟨rfl⟩ := Option.some.inj hp
    exact pickShorter_cases c1 c2

/-- Witness for C5: the keep-out geometry instantiated on `reqWrap`. -/
theorem wraparound_keepout_witness :
    ((candTop.getD 2 (0, 0)).2 = reqWrap.maxy + 0.2 ∧
       (candTop.getD 3 (0, 0)).2 = reqWrap.maxy + 0.2 ∧
       (candBott.getD 2 (0, 0)).2 = reqWrap.miny - 0.2 ∧
       (candBott.getD 3 (0, 0)).2 = reqWrap.miny - 0.2) ∨
      ((candTop.getD 2 (0, 0)).1 = reqWrap.minx - 0.2 ∧
       (candTop.getD 3 (0, 0)).1 = reqWrap.minx - 0.2 ∧
       (candBott.getD 2 (0, 0)).1 = reqWrap.maxx + 0.2 ∧
       (candBott.getD 3 (0, 0)).1 = reqWrap.maxx + 0.2) :=
  (wraparound_keepout reqWrap candTop candBott
    (Or.inl ⟨by
      norm_num [antiWrapH, reqWrap, Req.disp, Req.alignNum, Req.m1ext,
        Req.m2ext, Pin.standoff, padd, psub, pscale, pdot, Prod.ext_iff],
      rfl, rfl⟩)).1

/-! ## No-fold machinery (C9) -/

/-- Two displacement vectors point in exactly opposite directions: they are
parallel (`cross2 = 0`) with strictly negative dot product (which also
forces both to be nonzero). -/
def IsOppDir (u v : Pt) : Prop := cross2 u v = 0 ∧ pdot u v < 0

/-- The list of consecutive segment vectors of a vertex list. -/
def segs : List Pt → List Pt
  | p :: q :: rest => psub q p :: segs (q :: rest)
  | _ => []

/-- A vertex list never folds back on itself: no two consecutive segment
vectors are exact opposites. -/
def NoFold (pts : List Pt) : Prop :=
  (segs pts).Chain' fun u v => ¬IsOppDir u v

/-- The documented pin invariant: a normal is an axis-aligned unit vector. -/
def AxisUnit (n : Pt) : Prop :=
  n = (1, 0) ∨ n = (-1, 0) ∨ n = (0, 1) ∨ n = (0, -1)

theorem notOpp_of_dot_nonneg {u v : Pt} (h : 0 ≤ pdot u v) : ¬IsOppDir u v :=
  fun hc => absurd hc.2 (not_lt.mpr h)

theorem pdot_comm (u v : Pt) : pdot u v = pdot v u := by
  unfold pdot; ring

theorem pdot_pscale_left (c : ℚ) (u v : Pt) :
    pdot (pscale c u) v = c * pdot u v := by
  unfold pdot pscale; ring

theorem pdot_pscale_right (c : ℚ) (u v : Pt) :
    pdot u (pscale c v) = c * pdot u v := by
  unfold pdot pscale; ring

/-- Difference between a stand-off point and its pin position. -/
theorem standoff_sub (p : Pin) (w lead : ℚ) :
    psub (p.standoff w lead) p.middle = pscale (w / 2 + lead) p.normal := by
  unfold Pin.standoff padd psub pscale
  simp

/-- Difference between a pin position and its stand-off point. -/
theorem sub_standoff (p : Pin) (w lead : ℚ) :
    psub p.middle (p.standoff w lead) = pscale (-(w / 2 + lead)) p.normal := by
  unfold Pin.standoff padd psub pscale
  simp only [Prod.mk.injEq]
  constructor <;> ring

theorem noFold_four (p0 p1 p2 p3 : Pt)
    (h1 : ¬IsOppDir (psub p1 p0) (psub p2 p1))
    (h2 : ¬IsOppDir (psub p2 p1) (psub p3 p2)) :
    NoFold [p0, p1, p2, p3] := by
  unfold NoFold segs
  exact List.chain'_cons.mpr ⟨h1, List.chain'_cons.mpr ⟨h2, List.chain'_singleton _⟩⟩

theorem noFold_five (p0 p1 p2 p3 p4 : Pt)
    (h1 : ¬IsOppDir (psub p1 p0) (psub p2 p1))
    (h2 : ¬IsOppDir (psub p2 p1) (psub p3 p2))
    (h3 : ¬IsOppDir (psub p3 p2) (psub p4 p3)) :
    NoFold [p0, p1, p2, p3, p4] := by
  unfold NoFold segs
  exact List.chain'_cons.mpr ⟨h1, List.chain'_cons.mpr ⟨h2,
    List.chain'_cons.mpr ⟨h3, List.chain'_singleton _⟩⟩⟩

/-- A 1-segment vertex list has no fold as soon as neither the start lead
nor the end lead is opposite to the stand-off displacement. -/
theorem noFold_one_of (sp ep : Pin) (w ls le : ℚ)
    (h1 : ¬IsOppDir (pscale (w / 2 + ls) sp.normal)
      (psub (ep.standoff w le) (sp.standoff w ls)))
    (h2 : ¬IsOppDir (psub (ep.standoff w le) (sp.standoff w ls))
      (pscale (-(w / 2 + le)) ep.normal)) :
    NoFold [sp.middle, sp.standoff w ls, ep.standoff w le, ep.middle] := by
  apply noFold_four
  · rw [standoff_sub]; exact h1
  · rw [sub_standoff]; exact h2

/-- `startc1` of the 2-segment builder, as a standalone value. -/
def startc1v (sp ep : Pin) (w ls le : ℚ) : ℚ :=
  pdot (psub ((sp.standoff w ls).1, (ep.standoff w le).2) (sp.standoff w ls))
    sp.normal

/-- `endc1` of the 2-segment builder. -/
def endc1v (sp ep : Pin) (w ls le : ℚ) : ℚ :=
  pdot (psub ((sp.standoff w ls).1, (ep.standoff w le).2) (ep.standoff w le))
    ep.normal

/-- `startc2` of the 2-segment builder. -/
def startc2v (sp ep : Pin) (w ls le : ℚ) : ℚ :=
  pdot (psub ((ep.standoff w le).1, (sp.standoff w ls).2) (sp.standoff w ls))
    sp.normal

/-- `endc2` of the 2-segment builder. -/
def endc2v (sp ep : Pin) (w ls le : ℚ) : ℚ :=
  pdot (psub ((ep.standoff w le).1, (sp.standoff w ls).2) (ep.standoff w le))
    ep.normal

/-- Core no-fold fact for 2-segment lists: the lead segments' dot products
with the neighbouring segments are `(w/2+lead) * startc` resp.
`(w/2+lead) * endc` of the chosen corner, and the two middle segments are
always orthogonal.  Hence the only way to fold is to select corner 2 by the
final fallback with a negative dot product; the hypothesis `hS` rules that
out, which each normal-orientation family below establishes separately. -/
theorem noFold_pts2_of (sp ep : Pin) (w ls le : ℚ)
    (hl1 : 0 ≤ w / 2 + ls) (hl2 : 0 ≤ w / 2 + le)
    (hS : ¬0 ≤ min (startc1v sp ep w ls le) (endc1v sp ep w ls le) →
      0 ≤ startc2v sp ep w ls le ∧ 0 ≤ endc2v sp ep w ls le) :
    NoFold (pts2 sp ep w ls le) := by
  have eS1 : pdot (psub (sp.standoff w ls) sp.middle)
      (psub ((sp.standoff w ls).1, (ep.standoff w le).2) (sp.standoff w ls)) =
      (w / 2 + ls) * startc1v sp ep w ls le := by
    simp [startc1v, pdot, psub, pscale, padd, Pin.standoff]
    ring
  have eS2 : pdot (psub (sp.standoff w ls) sp.middle)
      (psub ((ep.standoff w le).1, (sp.standoff w ls).2) (sp.standoff w ls)) =
      (w / 2 + ls) * startc2v sp ep w ls le := by
    simp [startc2v, pdot, psub, pscale, padd, Pin.standoff]
    ring
  have eE1 : pdot
      (psub (ep.standoff w le) ((sp.standoff w ls).1, (ep.standoff w le).2))
      (psub ep.middle (ep.standoff w le)) =
      (w / 2 + le) * endc1v sp ep w ls le := by
    simp [endc1v, pdot, psub, pscale, padd, Pin.standoff]
    ring
  have eE2 : pdot
      (psub (ep.standoff w le) ((ep.standoff w le).1, (sp.standoff w ls).2))
      (psub ep.middle (ep.standoff w le)) =
      (w / 2 + le) * endc2v sp ep w ls le := by
    simp [endc2v, pdot, psub, pscale, padd, Pin.standoff]
    ring
  have eM1 : pdot
      (psub ((sp.standoff w ls).1, (ep.standoff w le).2) (sp.standoff w ls))
      (psub (ep.standoff w le) ((sp.standoff w ls).1, (ep.standoff w le).2)) =
      0 := by
    simp [pdot, psub]
  have eM2 : pdot
      (psub ((ep.standoff w le).1, (sp.standoff w ls).2) (sp.standoff w ls))
      (psub (ep.standoff w le) ((ep.standoff w le).1, (sp.standoff w ls).2)) =
      0 := by
    simp [pdot, psub]
  unfold pts2
  simp only []
  split_ifs with hb1 hb2 hb3
  · exact noFold_five _ _ _ _ _
      (notOpp_of_dot_nonneg (by rw [eS1]; exact mul_nonneg hl1 hb1.1.le))
      (notOpp_of_dot_nonneg (le_of_eq eM1.symm))
      (notOpp_of_dot_nonneg (by rw [eE1]; exact mul_nonneg hl2 hb1.2.le))
  · exact noFold_five _ _ _ _ _
      (notOpp_of_dot_nonneg (by rw [eS2]; exact mul_nonneg hl1 hb2.1.le))
      (notOpp_of_dot_nonneg (le_of_eq eM2.symm))
      (notOpp_of_dot_nonneg (by rw [eE2]; exact mul_nonneg hl2 hb2.2.le))
  · exact noFold_five _ _ _ _ _
      (notOpp_of_dot_nonneg
        (by rw [eS1]; exact mul_nonneg hl1 (le_min_iff.mp hb3).1))
      (notOpp_of_dot_nonneg (le_of_eq eM1.symm))
      (notOpp_of_dot_nonneg
        (by rw [eE1]; exact mul_nonneg hl2 (le_min_iff.mp hb3).2))
  · exact noFold_five _ _ _ _ _
      (notOpp_of_dot_nonneg (by rw [eS2]; exact mul_nonneg hl1 (hS hb3).1))
      (notOpp_of_dot_nonneg (le_of_eq eM2.symm))
      (notOpp_of_dot_nonneg (by rw [eE2]; exact mul_nonneg hl2 (hS hb3).2))

/-- With axis-aligned unit normals, `normdot == -1` forces `n2 = -n1`. -/
theorem axis_antipar {n1 n2 : Pt} (h1 : AxisUnit n1) (h2 : AxisUnit n2)
    (hd : pdot n1 n2 = -1) : n2 = pscale (-1) n1 := by
  rcases h1 with rfl | rfl | rfl | rfl <;> rcases h2 with rfl | rfl | rfl | rfl <;>
    norm_num [pdot, pscale, Prod.ext_iff] at hd ⊢

/-- With axis-aligned unit normals, a `normdot` equal to neither `-1` nor
`0` forces `n2 = n1`. -/
theorem axis_par {n1 n2 : Pt} (h1 : AxisUnit n1) (h2 : AxisUnit n2)
    (hd1 : pdot n1 n2 ≠ -1) (hd0 : pdot n1 n2 ≠ 0) : n2 = n1 := by
  rcases h1 with rfl | rfl | rfl | rfl <;> rcases h2 with rfl | rfl | rfl | rfl <;>
    first
      | rfl
      | (exfalso; apply hd1; norm_num [pdot]; done)
      | (exfalso; apply hd0; norm_num [pdot]; done)

/-- An axis-aligned unit normal has squared norm 1. -/
theorem axis_sqnorm {n : Pt} (h : AxisUnit n) : sqnorm n = 1 := by
  rcases h with rfl | rfl | rfl | rfl <;> norm_num [sqnorm]

/-- A vector orthogonal to and parallel with the same nonzero vector is 0. -/
theorem eq_zero_of_dot_cross {n v : Pt} (hn : sqnorm n ≠ 0)
    (hd : pdot n v = 0) (hc : cross2 n v = 0) : v = (0, 0) := by
  have e1 : sqnorm n * v.1 = n.1 * pdot n v - n.2 * cross2 n v := by
    unfold sqnorm pdot cross2; ring
  have e2 : sqnorm n * v.2 = n.2 * pdot n v + n.1 * cross2 n v := by
    unfold sqnorm pdot cross2; ring
  rw [hd, hc] at e1 e2
  simp only [mul_zero, zero_add, sub_zero, add_zero] at e1 e2
  have hv1 : v.1 = 0 := by
    rcases mul_eq_zero.mp e1 with h | h
    · exact absurd h hn
    · exact h
  have hv2 : v.2 = 0 := by
    rcases mul_eq_zero.mp e2 with h | h
    · exact absurd h hn
    · exact h
  rw [Prod.ext_iff]
  exact ⟨hv1, hv2⟩

/-- `psub a b = 0` iff the points coincide. -/
theorem psub_eq_zero {a b : Pt} (h : psub a b = (0, 0)) : a = b := by
  rw [Prod.ext_iff]
  have h1 := congrArg Prod.fst h
  have h2 := congrArg Prod.snd h
  simp [psub] at h1 h2
  exact ⟨sub_eq_zero.mp h1, sub_eq_zero.mp h2⟩

/-- No-fold for the perpendicular-family 2-segment lists. -/
theorem noFold_two_perp (sp ep : Pin) (w ls le : ℚ)
    (hax1 : AxisUnit sp.normal) (hax2 : AxisUnit ep.normal)
    (hperp : pdot sp.normal ep.normal = 0)
    (hl1 : 0 ≤ w / 2 + ls) (hl2 : 0 ≤ w / 2 + le) :
    NoFold (pts2 sp ep w ls le) := by
  apply noFold_pts2_of sp ep w ls le hl1 hl2
  intro hmin
  rcases hax1 with h1 | h1 | h1 | h1 <;> rcases hax2 with h2 | h2 | h2 | h2 <;>
    first
      | (exfalso; rw [h1, h2] at hperp; norm_num [pdot] at hperp; done)
      | (exfalso; apply hmin;
         simp [startc1v, endc1v, pdot, psub, h1, h2]; done)
      | (constructor <;> (simp [startc2v, endc2v, pdot, psub, h1, h2]; done))

/-- No-fold for the parallel-family 2-segment lists. -/
theorem noFold_two_par (sp ep : Pin) (w ls le : ℚ)
    (hax1 : AxisUnit sp.normal) (heq : ep.normal = sp.normal)
    (hl1 : 0 ≤ w / 2 + ls) (hl2 : 0 ≤ w / 2 + le) :
    NoFold (pts2 sp ep w ls le) := by
  apply noFold_pts2_of sp ep w ls le hl1 hl2
  intro hmin
  rcases hax1 with h1 | h1 | h1 | h1
  case inl | inr.inl =>
    -- horizontal normals: startc1 = 0 and endc2 = 0, startc2 = -endc1
    have hs1 : startc1v sp ep w ls le = 0 := by
      simp [startc1v, pdot, psub, h1]
    have he : endc1v sp ep w ls le < 0 := by
      by_contra hco
      push_neg at hco
      exact hmin (by rw [hs1]; exact le_min le_rfl hco)
    have hs2 : startc2v sp ep w ls le = -endc1v sp ep w ls le := by
      simp [startc2v, endc1v, pdot, psub, heq, h1]
    constructor
    · rw [hs2]; linarith
    · simp [endc2v, pdot, psub, heq, h1]
  case inr.inr.inl | inr.inr.inr =>
    -- vertical normals: endc1 = 0 and startc2 = 0, endc2 = -startc1
    have he1 : endc1v sp ep w ls le = 0 := by
      simp [endc1v, pdot, psub, heq, h1]
    have hs : startc1v sp ep w ls le < 0 := by
      by_contra hco
      push_neg at hco
      exact hmin (by rw [he1]; exact le_min hco le_rfl)
    have he2 : endc2v sp ep w ls le = -startc1v sp ep w ls le := by
      simp [startc1v, endc2v, pdot, psub, heq, h1]
    constructor
    · simp [startc2v, pdot, psub, h1]
    · rw [he2]; linarith

theorem cross2_pscale_left (c : ℚ) (u v : Pt) :
    cross2 (pscale c u) v = c * cross2 u v := by
  unfold cross2 pscale; ring

theorem cross2_pscale_right (c : ℚ) (u v : Pt) :
    cross2 u (pscale c v) = c * cross2 u v := by
  unfold cross2 pscale; ring

theorem cross2_anticomm (u v : Pt) : cross2 u v = -cross2 v u := by
  unfold cross2; ring

/-- No-fold for the antiparallel-family 1-segment lists (`alignment == 1`
or `alignment == 0`): the stand-off displacement has non-negative dot
product with `n1`, hence with every segment direction of the path. -/
theorem noFold_anti_one (sp ep : Pin) (w ls le : ℚ)
    (heq : ep.normal = pscale (-1) sp.normal)
    (hl1 : 0 ≤ w / 2 + ls) (hl2 : 0 ≤ w / 2 + le)
    (ha : 0 ≤ pdot (psub (ep.standoff w le) (sp.standoff w ls)) sp.normal) :
    NoFold [sp.middle, sp.standoff w ls, ep.standoff w le, ep.middle] := by
  apply noFold_one_of
  · apply notOpp_of_dot_nonneg
    rw [pdot_pscale_left, pdot_comm]
    exact mul_nonneg hl1 ha
  · apply notOpp_of_dot_nonneg
    have hrw : pdot (psub (ep.standoff w le) (sp.standoff w ls))
        (pscale (-(w / 2 + le)) ep.normal) =
        (w / 2 + le) *
          pdot (psub (ep.standoff w le) (sp.standoff w ls)) sp.normal := by
      rw [heq, pdot_pscale_right, pdot_pscale_right]
      ring
    rw [hrw]
    exact mul_nonneg hl2 ha

/-- No-fold for the parallel-family 1-segment lists: with `n2 = n1` axis
aligned, pin positions distinct and the displacement orthogonal to the
normal, neither lead can be opposite to the stand-off displacement, because
that would force the displacement parallel to the normal and hence zero. -/
theorem noFold_par_one (sp ep : Pin) (w ls le : ℚ) (hax : AxisUnit sp.normal)
    (heq : ep.normal = sp.normal) (hm : sp.middle ≠ ep.middle)
    (hdot : pdot sp.normal (psub ep.middle sp.middle) = 0) :
    NoFold [sp.middle, sp.standoff w ls, ep.standoff w le, ep.middle] := by
  have hn : sqnorm sp.normal ≠ 0 := by rw [axis_sqnorm hax]; norm_num
  have hcd : cross2 sp.normal (psub (ep.standoff w le) (sp.standoff w ls)) =
      cross2 sp.normal (psub ep.middle sp.middle) := by
    simp only [cross2, psub, Pin.standoff, padd, pscale, heq]
    ring
  have contra :
      cross2 sp.normal (psub (ep.standoff w le) (sp.standoff w ls)) = 0 →
      False := by
    intro hcv0
    have hcv : cross2 sp.normal (psub ep.middle sp.middle) = 0 := by
      rw [← hcd]; exact hcv0
    exact hm (psub_eq_zero (eq_zero_of_dot_cross hn hdot hcv)).symm
  apply noFold_one_of
  · rintro ⟨hc, hd⟩
    rw [cross2_pscale_left] at hc
    rw [pdot_pscale_left] at hd
    have hl : w / 2 + ls ≠ 0 := by
      intro h0
      rw [h0, zero_mul] at hd
      exact absurd hd (lt_irrefl 0)
    rcases mul_eq_zero.mp hc with h0 | h0
    · exact hl h0
    · exact contra h0
  · rintro ⟨hc, hd⟩
    rw [cross2_pscale_right] at hc
    rw [pdot_pscale_right] at hd
    have hl : -(w / 2 + le) ≠ 0 := by
      intro h0
      rw [h0, zero_mul] at hd
      exact absurd hd (lt_irrefl 0)
    rcases mul_eq_zero.mp hc with h0 | h0
    · exact hl h0
    · refine contra ?_
      rw [cross2_anticomm]
      rw [heq] at h0
      rw [h0]
      ring

/-- C9 (amended): every 1-segment (4-vertex) and 2-segment (5-vertex)
result of the planner, under the documented input assumptions (axis-aligned
unit normals, non-negative stand-off lengths, distinct pin positions),
never has two consecutive segments in exactly opposite directions — except
in the perpendicular-family collinear 1-segment case (perpendicular
normals, neither pin on the enclosing-box perimeter, pin coordinates
collinear) when the stand-off displacement is exactly antiparallel to the
start lead or exactly parallel to the end normal.  The hypothesis `hexcl`
excludes the degeneracy in exactly that branch and constrains nothing
anywhere else; the claim fails without it, see the counterexample. -/
theorem noFold_low_segment (r : Req) (pts : List Pt)
    (hax1 : AxisUnit r.pin1.normal) (hax2 : AxisUnit r.pin2.normal)
    (hl1 : 0 ≤ r.w / 2 + r.leadstart) (hl2 : 0 ≤ r.w / 2 + r.leadend)
    (hm : r.pin1.middle ≠ r.pin2.middle)
    (hexcl : pdot r.pin1.normal r.pin2.normal = 0 →
      (¬onLR1 r ∧ ¬onLR2 r ∧ ¬onBT1 r ∧ ¬onBT2 r) →
      (r.pin1.middle.1 = r.pin2.middle.1 ∨
        r.pin1.middle.2 = r.pin2.middle.2) →
      ¬IsOppDir (pscale (r.w / 2 + r.leadstart) r.pin1.normal) r.disp ∧
      ¬IsOppDir r.disp (pscale (-(r.w / 2 + r.leadend)) r.pin2.normal))
    (h : make r = some pts) (hlen : pts.length = 4 ∨ pts.length = 5) :
    NoFold pts := by
  delta make at h
  by_cases hnd : pdot r.pin1.normal r.pin2.normal = -1
  · -- antiparallel family
    rw [if_pos hnd] at h
    have hn2 := axis_antipar hax1 hax2 hnd
    delta makeAnti at h
    by_cases hdz : r.disp = (0, 0)
    · rw [if_pos hdz] at h
      exact Option.noConfusion h
    rw [if_neg hdz] at h
    by_cases hA : 0 ≤ r.alignNum ∧ r.alignNum ^ 2 = sqnorm r.disp
    · rw [if_pos hA, getpts_one] at h
      obtain ⟨rfl⟩ := Option.some.inj h
      exact noFold_anti_one _ _ _ _ _ hn2 hl1 hl2 hA.1
    rw [if_neg hA] at h
    by_cases hpos : 0 < r.alignNum
    · rw [if_pos hpos] at h
      split_ifs at h <;>
        (rw [getpts_three] at h
         obtain ⟨rfl⟩ := Option.some.inj h
         exfalso
         rcases hlen with hx | hx <;> rw [pts3_length] at hx <;> norm_num at hx)
    rw [if_neg hpos] at h
    by_cases hz : r.alignNum = 0
    · rw [if_pos hz, getpts_one] at h
      obtain ⟨rfl⟩ := Option.some.inj h
      exact noFold_anti_one _ _ _ _ _ hn2 hl1 hl2 (le_of_eq hz.symm)
    rw [if_neg hz] at h
    split_ifs at h <;>
      first
        | (rw [getpts_three] at h
           obtain ⟨rfl⟩ := Option.some.inj h
           exfalso
           rcases hlen with hx | hx <;> rw [pts3_length] at hx <;>
             norm_num at hx)
        | (simp only [getpts_three, Option.some_bind] at h
           obtain ⟨rfl⟩ := Option.some.inj h
           exfalso
           rcases pickShorter_cases
               (pts3 r.pin1 r.pin2 r.w r.leadstart r.leadend 1 (r.maxy + 0.2))
               (pts3 r.pin1 r.pin2 r.w r.leadstart r.leadend 1 (r.miny - 0.2))
             with hc | hc <;> rw [hc] at hlen <;>
             rcases hlen with hx | hx <;> rw [pts3_length] at hx <;>
             norm_num at hx)
        | (simp only [getpts_three, Option.some_bind] at h
           obtain ⟨rfl⟩ := Option.some.inj h
           exfalso
           rcases pickShorter_cases
               (pts3 r.pin1 r.pin2 r.w r.leadstart r.leadend 0 (r.minx - 0.2))
               (pts3 r.pin1 r.pin2 r.w r.leadstart r.leadend 0 (r.maxx + 0.2))
             with hc | hc <;> rw [hc] at hlen <;>
             rcases hlen with hx | hx <;> rw [pts3_length] at hx <;>
             norm_num at hx)
  rw [if_neg hnd] at h
  by_cases hnd0 : pdot r.pin1.normal r.pin2.normal = 0
  · -- perpendicular family
    rw [if_pos hnd0] at h
    delta makePerp at h
    by_cases hb1 : onLR1 r ∧ onBT2 r
    · rw [if_pos hb1, getpts_two] at h
      obtain ⟨rfl⟩ := Option.some.inj h
      exact noFold_two_perp _ _ _ _ _ hax1 hax2 hnd0 hl1 hl2
    rw [if_neg hb1] at h
    by_cases hb2 : onBT1 r ∧ onLR2 r
    · rw [if_pos hb2, getpts_two] at h
      obtain ⟨rfl⟩ := Option.some.inj h
      exact noFold_two_perp _ _ _ _ _ hax1 hax2 hnd0 hl1 hl2
    rw [if_neg hb2] at h
    by_cases hb3 : ¬onLR1 r ∧ ¬onLR2 r ∧ ¬onBT1 r ∧ ¬onBT2 r
    · rw [if_pos hb3] at h
      by_cases hcol : r.pin1.middle.1 = r.pin2.middle.1 ∨
          r.pin1.middle.2 = r.pin2.middle.2
      · rw [if_pos hcol, getpts_one] at h
        obtain ⟨rfl⟩ := Option.some.inj h
        exact noFold_one_of _ _ _ _ _
          (hexcl hnd0 hb3 hcol).1 (hexcl hnd0 hb3 hcol).2
      · rw [if_neg hcol, getpts_two] at h
        obtain ⟨rfl⟩ := Option.some.inj h
        exact noFold_two_perp _ _ _ _ _ hax1 hax2 hnd0 hl1 hl2
    rw [if_neg hb3] at h
    split_ifs at h <;>
      first
        | exact Option.noConfusion h
        | (delta makePerpPin1 at h
           split_ifs at h <;>
             first
               | exact Option.noConfusion h
               | (rw [getpts_two] at h
                  obtain ⟨rfl⟩ := Option.some.inj h
                  exact noFold_two_perp _ _ _ _ _ hax1 hax2 hnd0 hl1 hl2)
               | (rw [getpts_three] at h
                  obtain ⟨rfl⟩ := Option.some.inj h
                  exfalso
                  rcases hlen with hx | hx <;> rw [pts3_length] at hx <;>
                    norm_num at hx))
        | (delta makePerpPin2 at h
           split_ifs at h <;>
             first
               | exact Option.noConfusion h
               | (rw [getpts_two] at h
                  obtain ⟨rfl⟩ := Option.some.inj h
                  exact noFold_two_perp _ _ _ _ _ hax1 hax2 hnd0 hl1 hl2)
               | (rw [getpts_three] at h
                  obtain ⟨rfl⟩ := Option.some.inj h
                  exfalso
                  rcases hlen with hx | hx <;> rw [pts3_length] at hx <;>
                    norm_num at hx))
  rw [if_neg hnd0] at h
  -- parallel family
  have heqn := axis_par hax1 hax2 hnd hnd0
  delta makePar at h
  split_ifs at h with hc1 hc2 hc3 hc4 <;>
    first
      | (rw [getpts_one] at h
         obtain ⟨rfl⟩ := Option.some.inj h
         exact noFold_par_one _ _ _ _ _ hax1 heqn hm hc1.2)
      | (rw [getpts_two] at h
         obtain ⟨rfl⟩ := Option.some.inj h
         exact noFold_two_par _ _ _ _ _ hax1 heqn hl1 hl2)
      | (simp only [getpts_three, Option.some_bind] at h
         obtain ⟨rfl⟩ := Option.some.inj h
         exfalso
         rcases pickShorter_cases
             (pts3 r.pin1 r.pin2 r.w r.leadstart r.leadend 1 (r.maxy + 0.2))
             (pts3 r.pin1 r.pin2 r.w r.leadstart r.leadend 1 (r.miny - 0.2))
           with hc | hc <;> rw [hc] at hlen <;>
           rcases hlen with hx | hx <;> rw [pts3_length] at hx <;>
           norm_num at hx)
      | (simp only [getpts_three, Option.some_bind] at h
         obtain ⟨rfl⟩ := Option.some.inj h
         exfalso
         rcases pickShorter_cases
             (pts3 r.pin1 r.pin2 r.w r.leadstart r.leadend 0 (r.minx - 0.2))
             (pts3 r.pin1 r.pin2 r.w r.leadstart r.leadend 0 (r.maxx + 0.2))
           with hc | hc <;> rw [hc] at hlen <;>
           rcases hlen with hx | hx <;> rw [pts3_length] at hx <;>
           norm_num at hx)

/-- The perpendicular-family fold input for C9: pin 1 at `(4,11)` pointing
right on box `(0,10)-(4,12)`, pin 2 at `(4,8)` pointing up on box
`(1,0)-(6,8)`.  All documented input assumptions hold (axis-aligned unit
normals, disjoint boxes with a nonzero gap, non-corner pins, neither pin on
the enclosing-box perimeter), and the pins are collinear (`x = 4`), so the
planner takes the perpendicular 1-segment branch.  With `w/2 + leadend = 3`
the end stand-off exactly bridges the vertical offset, so the middle
segment runs from `(5,11)` straight back to `(4,11)` — the exact opposite
of the first segment. -/
def reqPerpFold : Req :=
  { pin1 := ⟨(4, 11), (1, 0)⟩
    pin2 := ⟨(4, 8), (0, 1)⟩
    minx1 := 0, miny1 := 10, maxx1 := 4, maxy1 := 12
    minx2 := 1, miny2 := 0, maxx2 := 6, maxy2 := 8
    w := 1, leadstart := 1/2, leadend := 5/2 }

/-- C9, counterexample: the 1-segment (4-vertex) result on `reqPerpFold`
folds back on itself — its first two segments are exact opposites — so the
no-fold claim fails as stated for 1-segment results. -/
theorem perp_oneSeg_fold_cex :
    make reqPerpFold = some [((4 : ℚ), (11 : ℚ)), (5, 11), (4, 11), (4, 8)] ∧
    ¬NoFold [((4 : ℚ), (11 : ℚ)), (5, 11), (4, 11), (4, 8)] := by
  constructor
  · norm_num [make, makePerp, reqPerpFold, onLR1, onLR2, onBT1, onBT2,
      Req.minx, Req.miny, Req.maxx, Req.maxy, Pin.standoff, padd, psub,
      pscale, pdot, getpts, min_def, max_def, Prod.ext_iff]
  · intro hnf
    unfold NoFold segs at hnf
    have h1 := (List.chain'_cons.mp hnf).1
    apply h1
    constructor
    · norm_num [cross2, psub]
    · norm_num [pdot, psub]

/-- A perpendicular-family 2-segment input: pin 1 at `(2,1)` pointing
right on box `(0,0)-(2,2)`, pin 2 at `(4,3)` pointing down on box
`(3,3)-(5,5)`; stand-off lengths 3 and 2.  Neither pin is on the
enclosing-box perimeter and the pins are not collinear, so the planner
takes the perpendicular 2-segment branch; the stand-off displacement is
exactly antiparallel to the start lead, but that degeneracy is harmless
outside the collinear 1-segment branch. -/
def reqPerpTwo : Req :=
  { pin1 := ⟨(2, 1), (1, 0)⟩
    pin2 := ⟨(4, 3), (0, -1)⟩
    minx1 := 0, miny1 := 0, maxx1 := 2, maxy1 := 2
    minx2 := 3, miny2 := 3, maxx2 := 5, maxy2 := 5
    w := 2, leadstart := 2, leadend := 1 }

/-- Witness for C9's amended theorem: on the perpendicular 2-segment input
`reqPerpTwo` the planner produces a 5-vertex result and no two consecutive
segments are opposite (the exclusion hypothesis holds vacuously because the
pins are not collinear). -/
theorem noFold_low_segment_witness :
    NoFold [((2 : ℚ), (1 : ℚ)), (5, 1), (5, 1), (4, 1), (4, 3)] :=
  noFold_low_segment reqPerpTwo _ (Or.inl rfl)
    (Or.inr (Or.inr (Or.inr rfl)))
    (by norm_num [reqPerpTwo]) (by norm_num [reqPerpTwo])
    (by norm_num [reqPerpTwo, Prod.ext_iff])
    (fun _ _ hcol => absurd hcol (by norm_num [reqPerpTwo]))
    (by norm_num [make, makePerp, reqPerpTwo, onLR1, onLR2, onBT1, onBT2,
      Req.minx, Req.miny, Req.maxx, Req.maxy, Pin.standoff, padd, psub,
      pscale, pdot, getpts, min_def, max_def, Prod.ext_iff])
    (Or.inr rfl)

end CpwAuto
